import Mathlib

/-!
# The container store and the image viewport of `dry`

A shallow embedding of `docker/memory_store.go` (the in-memory container
store) and of `appui/images.go` (the image table renderer), with the
properties of both proved over the embedding.

Conventions of the embedding:

* `*types.Container` is a pointer to a record of the Docker API.  The store
  never writes through the pointer, so a pointer is modelled by the record
  it points to; `nil` never enters the store because `add` dereferences its
  argument first.
* the Go map `map[string]*types.Container` is a finite map with unique keys
  (`AList`); looking up a missing key gives `none`, Go's `nil`.
* every operation is a function from the state before it to the state after
  it; of the lock only the sequence of mutex calls each method makes is
  modelled, not the interleaving of goroutines.
-/

namespace Dry

/-! ## Data model -/

/-- The fields of `types.Container` (Docker API) the dashboard reads.  Only `ID`
is read by the store. -/
structure Container where
  ID : String
  Names : List String
  Image : String
  Command : String
  Created : Int
  State : String
  Status : String
  deriving DecidableEq

/-- The map `s` of the store: `map[string]*types.Container`. -/
abbrev ContainerMap := AList (fun _ : String => Container)

/-- The slices `[]*types.Container` of the store, by value. -/
abbrev Containers := List Container

/-- The struct `DockerContainerStore`: the map `s` and the slice `c`.  The client and the
mutex carry no data of the store. -/
structure DockerContainerStore where
  s : ContainerMap
  c : Containers

/-- The store built by `NewDockerContainerStore` before the first `add`:
`make(map[string]*types.Container)` and a nil slice. -/
def emptyStore : DockerContainerStore := ⟨∅, []⟩

/-- The `for pos, container := range c.c` loop of `add` and `Remove`: the first
position whose container has the given ID, if there is one. -/
def findPos (id : String) : Containers → Option Nat
  | [] => none
  | container :: rest =>
    if container.ID = id then some 0 else (findPos id rest).map (· + 1)

/-- Method `add`.  When the ID is a key of the map, the loop looks for the position of
the ID and assigns `append(c.c[0:pos], c.c[pos:]...)` to the slice; otherwise the
container is appended.  The map entry is written in both cases. -/
def DockerContainerStore.add (c : DockerContainerStore) (cont : Container) : DockerContainerStore :=
  let cc :=
    if cont.ID ∈ c.s then
      match findPos cont.ID c.c with
      | some pos => c.c.take pos ++ c.c.drop pos
      | none => c.c
    else
      c.c ++ [cont]
  { s := c.s.insert cont.ID cont, c := cc }

/-- Method `Get`: `c.s[id]`, `none` standing for `nil`. -/
def DockerContainerStore.Get (c : DockerContainerStore) (id : String) : Option Container :=
  c.s.lookup id

/-- Method `Remove`: `delete(c.s, id)`, then the first position holding the ID is cut
out of the slice by `append(c.c[0:pos], c.c[pos+1:]...)`. -/
def DockerContainerStore.Remove (c : DockerContainerStore) (id : String) : DockerContainerStore :=
  let cc :=
    match findPos id c.c with
    | some pos => c.c.take pos ++ c.c.drop (pos + 1)
    | none => c.c
  { s := c.s.erase id, c := cc }

/-- The slice `c` after the loop of `Remove`, as a function of the slice before it. -/
def cut (id : String) (cs : Containers) : Containers :=
  match findPos id cs with
  | some pos => cs.take pos ++ cs.drop (pos + 1)
  | none => cs

/-- The test `filter == nil || filter(cont)` of `all`; `none` is the `nil` filter. -/
def accepts : Option (Container → Bool) → Container → Bool
  | none, _ => true
  | some f, cont => f cont

/-- Method `all`: the containers of the slice the filter accepts, appended one by one to
a fresh slice, in slice order. -/
def DockerContainerStore.all (c : DockerContainerStore) (filter : Option (Container → Bool)) : Containers :=
  c.c.foldl
    (fun containers cont => if accepts filter cont then containers ++ [cont] else containers)
    []

/-- Method `List`: `c.all(nil)`. -/
def DockerContainerStore.List (c : DockerContainerStore) : Containers := c.all none

/-- Method `Filter`: `c.all(filter)`. -/
def DockerContainerStore.Filter (c : DockerContainerStore) (filter : Option (Container → Bool)) : Containers :=
  c.all filter

/-- Method `Size`: `len(c.c)`. -/
def DockerContainerStore.Size (c : DockerContainerStore) : Nat := c.c.length

/-- One mutation of the store. -/
inductive Op where
  | add (cont : Container)
  | remove (id : String)
  deriving DecidableEq

/-- Applies one mutation. -/
def step (c : DockerContainerStore) : Op → DockerContainerStore
  | .add cont => c.add cont
  | .remove id => c.Remove id

/-- Applies a sequence of mutations, first to last. -/
def run (ops : List Op) (c : DockerContainerStore) : DockerContainerStore :=
  ops.foldl step c

/-! ## The image table (`appui/images.go`) -/

/-- The fields of `types.ImageSummary` (Docker API) shown in the image table. -/
structure ImageSummary where
  ID : String
  RepoTags : List String
  Created : Int
  Size : Int
  deriving DecidableEq

/-- A Go slice `[]types.ImageSummary`, seen from its first element: `arr` is the backing
array from that element on, so its length is the capacity `cap`; `len` is the length of
the slice.  Lengths and capacities are values of type `int`. -/
structure ImageSlice where
  arr : List ImageSummary
  len : Nat
  len_le_cap : len ≤ arr.length
  cap_lt : arr.length < 2 ^ 63

/-- The elements of a slice: the first `len` cells of the backing array. -/
def ImageSlice.elems (images : ImageSlice) : List ImageSummary := images.arr.take images.len

/-- The slice whose backing array is exactly the given list (`len = cap`). -/
def ImageSlice.ofList (xs : List ImageSummary) (h : xs.length < 2 ^ 63) : ImageSlice :=
  ⟨xs, xs.length, Nat.le_refl _, h⟩

/-- The type `docker.SortImagesMode`, an integer type of package `docker`. -/
abbrev SortImagesMode := Nat

/-- The struct `DockerImageRenderData`. -/
structure DockerImageRenderData where
  images : ImageSlice
  selectedImage : Int
  sortMode : SortImagesMode

/-- Arithmetic of the 64-bit type `int`: the representative of `x` in `[-2^63, 2^63)`. -/
def wrapInt (x : Int) : Int := (x + 2 ^ 63) % 2 ^ 64 - 2 ^ 63

/-- The slice expression `images[start:end]`: the run-time check is
`0 <= start <= end <= cap(images)`; when it fails the program panics (`none`), otherwise
the elements are the cells `start`, ..., `end - 1` of the backing array. -/
def sliceExpr (images : ImageSlice) (start stop : Int) : Option (List ImageSummary) :=
  if 0 ≤ start ∧ start ≤ stop ∧ stop ≤ (images.arr.length : Int) then
    some ((images.arr.drop start.toNat).take (stop.toNat - start.toNat))
  else
    none

/-- The number of screen lines left for images:
`ui.ActiveScreen.Dimensions.Height - imageTableStartPos - 1`.  The screen height and the
constant `imageTableStartPos` are declared outside `images.go` and are parameters. -/
def screenLines (height imageTableStartPos : Int) : Int :=
  wrapInt (wrapInt (height - imageTableStartPos) - 1)

/-- The three branches of `imagesToShow` that set `start` and `end`. -/
def window (cursorPos lines : Int) : Int × Int :=
  if cursorPos > lines then
    (wrapInt (wrapInt (cursorPos + 1) - lines), wrapInt (cursorPos + 1))
  else if cursorPos = lines then
    (1, wrapInt (lines + 1))
  else
    (0, lines)

/-- Method `imagesToShow`: the rows of the image table that fit the screen.  `some rows`
is a normal return (`return nil` gives no rows), `none` a run-time panic of the slice
expression. -/
def imagesToShow (data : DockerImageRenderData) (height imageTableStartPos : Int) :
    Option (List ImageSummary) :=
  let images := data.images
  let cursorPos := data.selectedImage
  let lines := screenLines height imageTableStartPos
  if lines < 0 then
    some []
  else if (images.len : Int) < lines then
    some images.elems
  else
    sliceExpr images (window cursorPos lines).1 (window cursorPos lines).2

/-- The elements of a list at the positions `start`, ..., `stop - 1`. -/
def rowsBetween (xs : List ImageSummary) (start stop : Int) : List ImageSummary :=
  (xs.drop start.toNat).take (stop - start).toNat

/-- The arguments `imageInformation` hands to `docker.FormatImages`: the field `Selected`
of the formatting context and the rows.  `selected` starts as `len(images) - 1` and is
lowered to the cursor when the cursor is smaller.  The formatter itself is declared in
package `docker`; `none` is the panic of `imagesToShow`. -/
def imageInformation (data : DockerImageRenderData) (height imageTableStartPos : Int) :
    Option (Int × List ImageSummary) :=
  match imagesToShow data height imageTableStartPos with
  | none => none
  | some images =>
    let selected := (images.length : Int) - 1
    let selected := if data.selectedImage < selected then data.selectedImage else selected
    some (selected, images)

/-- The struct `imagesColumn`. -/
structure imagesColumn where
  name : String
  title : String
  mode : SortImagesMode
  deriving DecidableEq

/-- The constants of `docker.SortImagesMode` named by the columns.  They are declared in
package `docker`, outside `images.go`, and are parameters of the renderer. -/
structure ImageSortModes where
  SortImagesByRepo : SortImagesMode
  NoSortImages : SortImagesMode
  SortImagesByID : SortImagesMode
  SortImagesByCreationDate : SortImagesMode
  SortImagesBySize : SortImagesMode

/-- The five constants are pairwise distinct. -/
def ImageSortModes.Distinct (k : ImageSortModes) : Prop :=
  [k.SortImagesByRepo, k.NoSortImages, k.SortImagesByID, k.SortImagesByCreationDate,
    k.SortImagesBySize].Nodup

instance (k : ImageSortModes) : Decidable k.Distinct := by
  unfold ImageSortModes.Distinct; infer_instance

/-- The field `columns` set by `NewDockerImagesRenderer`. -/
def rendererColumns (k : ImageSortModes) : List imagesColumn :=
  [ ⟨"Repository", "REPOSITORY", k.SortImagesByRepo⟩,
    ⟨"Tag", "TAG", k.NoSortImages⟩,
    ⟨"Id", "ID", k.SortImagesByID⟩,
    ⟨"Created", "Created", k.SortImagesByCreationDate⟩,
    ⟨"Size", "Size", k.SortImagesBySize⟩ ]

/-- The body of the loop of `tableHeader`: the cell of one column.  `downArrow` is the
constant `DownArrow` of package `appui`, declared outside `images.go`. -/
def headerCell (downArrow : String) (sortMode : SortImagesMode) (col : imagesColumn) : String :=
  if sortMode ≠ col.mode then col.title else downArrow ++ col.title

/-- Method `tableHeader`: the cells of the columns joined by tabs inside the green
markup. -/
def tableHeader (downArrow : String) (columns : List imagesColumn)
    (data : DockerImageRenderData) : String :=
  "<green>" ++ "\t".intercalate (columns.map (headerCell downArrow data.sortMode)) ++ "</>"

/-! ## Construction, sorting and locking of the store -/

/-- Function `NewDockerContainerStore`.  The parameter is the outcome of the bulk listing
`containers(client)`, a helper declared outside `memory_store.go`: an error, or the list of
containers.  On error no store is returned; otherwise `add` is applied to each container
in order, starting from the empty store. -/
def NewDockerContainerStore {ε : Type} (listing : Except ε Containers) :
    Except ε DockerContainerStore :=
  match listing with
  | .error err => .error err
  | .ok containers => .ok (containers.foldl (fun store container => store.add container) emptyStore)

/-- Modelled from the spec: the type `docker.SortMode` is declared outside
`memory_store.go`.  The spec calls a sort mode "a named, directional comparison rule applied
to produce a total order over entities": `le a b` says that `a` comes no later than `b`,
and the rule is total and transitive. -/
structure SortMode where
  le : Container → Container → Bool
  total : ∀ a b, le a b = true ∨ le b a = true
  trans : ∀ a b c, le a b = true → le b c = true → le a c = true

/-- Modelled from the spec: the order `SortContainers` sorts by, the comparison of the mode
with "ties broken by identifier ascending". -/
def tieLe (mode : SortMode) (a b : Container) : Prop :=
  mode.le a b = true ∧ (mode.le b a = true → a.ID ≤ b.ID)

instance (mode : SortMode) : DecidableRel (tieLe mode) := by
  intro a b; unfold tieLe; infer_instance

/-- Modelled from the spec: the function `docker.SortContainers` is declared outside
`memory_store.go`.  It puts the slice in the order of the mode's comparison function, ties
broken by identifier ascending. -/
def SortContainers (containers : Containers) (mode : SortMode) : Containers :=
  containers.insertionSort (tieLe mode)

/-- Method `Sort`: `c.List()` gives a fresh slice, `SortContainers` sorts that slice in
place and it is returned.  The second component is the store after the call: no statement
of `Sort` assigns to `c.s` or `c.c`. -/
def DockerContainerStore.Sort (c : DockerContainerStore) (mode : SortMode) :
    Containers × DockerContainerStore :=
  let containers := c.List
  (SortContainers containers mode, c)

/-- The calls on the embedded `sync.RWMutex`. -/
inductive LockEvent where
  | Lock
  | Unlock
  | RLock
  | RUnlock
  deriving DecidableEq

/-- The mutex calls of `add`, in program order. -/
def addLocks : List LockEvent := [.Lock, .Unlock]

/-- The mutex calls of `Get`. -/
def GetLocks : List LockEvent := [.RLock, .RUnlock]

/-- The mutex calls of `all`. -/
def allLocks : List LockEvent := [.RLock, .RUnlock]

/-- The mutex calls of `List`, which only calls `all`. -/
def ListLocks : List LockEvent := allLocks

/-- The mutex calls of `Filter`, which only calls `all`. -/
def FilterLocks : List LockEvent := allLocks

/-- The mutex calls of `Remove`. -/
def RemoveLocks : List LockEvent := [.Lock, .Unlock]

/-- The mutex calls of `Size`: `RLock`, and the deferred `RUnlock` at the return. -/
def SizeLocks : List LockEvent := [.RLock, .RUnlock]

/-- The mutex calls of `Sort`: `RLock`, then the calls of `c.List()`, then the deferred
`RUnlock` at the return (`SortContainers` has no access to the mutex). -/
def SortLocks : List LockEvent := [.RLock] ++ ListLocks ++ [.RUnlock]

/-- The number of acquisitions (`Lock` or `RLock`) in a sequence of mutex calls. -/
def acquisitions (events : List LockEvent) : Nat :=
  (events.filter (fun e => e = .Lock ∨ e = .RLock)).length

/-- The number of locks held after each mutex call of a sequence, starting from `held`. -/
def heldAfter (held : Nat) : List LockEvent → List Nat
  | [] => []
  | .Lock :: rest => (held + 1) :: heldAfter (held + 1) rest
  | .RLock :: rest => (held + 1) :: heldAfter (held + 1) rest
  | .Unlock :: rest => (held - 1) :: heldAfter (held - 1) rest
  | .RUnlock :: rest => (held - 1) :: heldAfter (held - 1) rest

/-- A call acquires the lock exactly once, never while it already holds it, and has
released it when it returns. -/
def LocksOnce (events : List LockEvent) : Prop :=
  acquisitions events = 1 ∧ (∀ n ∈ heldAfter 0 events, n ≤ 1) ∧ (heldAfter 0 events).getLast? = some 0

instance (events : List LockEvent) : Decidable (LocksOnce events) := by
  unfold LocksOnce; infer_instance

/-! ## The window of the spec -/

/-- The window as the claim on the boundary gives it, in unbounded integers:
`(max(0, cursorPos + 1 - lines), max(0, cursorPos + 1 - lines) + lines)`. -/
def windowSpec (cursorPos lines : Int) : Int × Int :=
  (max 0 (cursorPos + 1 - lines), max 0 (cursorPos + 1 - lines) + lines)

/-! ## The store invariant and the reference model -/

/-- The identifiers of a slice of containers, in slice order. -/
def ids (cs : Containers) : List String := cs.map (·.ID)

/-- The store invariant: no identifier occurs twice in the slice `c`, and the keys of the
map `s` are exactly the identifiers of the slice. -/
def Inv (c : DockerContainerStore) : Prop :=
  (ids c.c).Nodup ∧ (∀ id ∈ c.s.keys, id ∈ ids c.c) ∧ (∀ id ∈ ids c.c, id ∈ c.s.keys)

instance (c : DockerContainerStore) : Decidable (Inv c) := by
  unfold Inv; infer_instance

/-- One step of the reference set model: `add` inserts the identifier of the entity,
`Remove` deletes the identifier. -/
def refStep (present : Finset String) : Op → Finset String
  | .add cont => insert cont.ID present
  | .remove id => present.erase id

/-- The reference set model: the identifiers present after a sequence of mutations of the
empty store. -/
def refModel (ops : List Op) : Finset String := ops.foldl refStep ∅

/-! ## Sample data -/

/-- A running web container. -/
def webV1 : Container :=
  ⟨"c1", ["/web"], "nginx:1.25", "nginx -g", 1700000000, "running", "Up 2 minutes"⟩

/-- A later snapshot of the same container (same ID), now stopped. -/
def webV2 : Container :=
  ⟨"c1", ["/web"], "nginx:1.25", "nginx -g", 1700000000, "exited", "Exited (0) 5 seconds ago"⟩

/-- A second container. -/
def dbV1 : Container :=
  ⟨"c2", ["/db"], "postgres:16", "postgres", 1700000100, "running", "Up 1 minute"⟩

/-- An image with the given ID. -/
def image (id : String) : ImageSummary := ⟨id, [id ++ ":latest"], 1700000000, 1024⟩

/-- Ten images. -/
def tenImages : List ImageSummary :=
  [image "i0", image "i1", image "i2", image "i3", image "i4",
   image "i5", image "i6", image "i7", image "i8", image "i9"]

/-- Render data over the ten images with the cursor on the given row. -/
def tenAt (cursorPos : Int) : DockerImageRenderData :=
  ⟨ImageSlice.ofList tenImages (by decide), cursorPos, 0⟩

/-- Three images. -/
def threeImages : List ImageSummary := [image "i0", image "i1", image "i2"]

/-- Render data over the three images with the cursor on the given row. -/
def threeAt (cursorPos : Int) : DockerImageRenderData :=
  ⟨ImageSlice.ofList threeImages (by decide), cursorPos, 0⟩

/-- Render data over the three images in a backing array of capacity 4 whose last cell
still holds the image `i3` deleted from the list (`len = 3`, `cap = 4`), with the cursor on
the given row. -/
def threeWithStaleAt (cursorPos : Int) : DockerImageRenderData :=
  ⟨⟨threeImages ++ [image "i3"], 3, by decide, by decide⟩, cursorPos, 0⟩

/-- Render data over an empty image list (a nil slice) with the cursor on row 0. -/
def noImages : DockerImageRenderData :=
  ⟨ImageSlice.ofList [] (by decide), 0, 0⟩

/-- Modelled from the spec: the sort-mode vocabulary is "an enumerated set of named sort
modes"; the five modes of the columns, numbered in the order of the columns. -/
def enumeratedModes : ImageSortModes := ⟨0, 1, 2, 3, 4⟩

/-- A marker for the active column. -/
def arrow : String := "v "

/-- Render data without images whose active sort mode is the given one. -/
def sortedBy (mode : SortImagesMode) : DockerImageRenderData :=
  ⟨ImageSlice.ofList [] (by decide), 0, mode⟩

/-- The sort mode comparing creation times. -/
def byCreated : SortMode where
  le a b := decide (a.Created ≤ b.Created)
  total a b := by
    simp only [decide_eq_true_eq]
    exact le_total _ _
  trans a b c := by
    simp only [decide_eq_true_eq]
    exact le_trans

/-! ## Lemmas on the loops -/

theorem findPos_eq_none {id : String} {cs : Containers} :
    findPos id cs = none ↔ id ∉ ids cs := by
  induction cs with
  | nil => simp [findPos, ids]
  | cons x rest ih =>
    by_cases h : x.ID = id
    · simp [findPos, ids, h]
    · have hne : ¬ id = x.ID := fun e => h e.symm
      simp only [findPos, h, if_false, Option.map_eq_none', ih]
      simp [ids, hne]

theorem findPos_lt {id : String} {cs : Containers} {pos : Nat}
    (h : findPos id cs = some pos) : pos < cs.length := by
  induction cs generalizing pos with
  | nil => simp [findPos] at h
  | cons x rest ih =>
    by_cases hx : x.ID = id
    · simp [findPos, hx] at h
      subst h
      simp
    · simp only [findPos, hx, if_false, Option.map_eq_some'] at h
      obtain ⟨q, hq, rfl⟩ := h
      have := ih hq
      simp
      omega

theorem cut_nil (id : String) : cut id [] = [] := by
  simp [cut, findPos]

theorem cut_cons (id : String) (x : Container) (rest : Containers) :
    cut id (x :: rest) = if x.ID = id then rest else x :: cut id rest := by
  by_cases hx : x.ID = id
  · simp [cut, findPos, hx]
  · simp only [cut, findPos, hx, if_false]
    cases findPos id rest with
    | none => simp
    | some q => simp

theorem cut_eq_filter {id : String} {cs : Containers} (h : (ids cs).Nodup) :
    cut id cs = cs.filter (fun x => x.ID ≠ id) := by
  induction cs with
  | nil => simp [cut_nil]
  | cons x rest ih =>
    have hn : x.ID ∉ ids rest ∧ (ids rest).Nodup := by
      simpa [ids] using h
    rw [cut_cons]
    by_cases hx : x.ID = id
    · have hfil : rest.filter (fun y => y.ID ≠ id) = rest := by
        apply List.filter_eq_self.2
        intro y hy
        have : y.ID ≠ id := by
          intro e
          apply hn.1
          rw [hx, ← e]
          exact List.mem_map_of_mem _ hy
        simpa using this
      rw [if_pos hx, List.filter_cons_of_neg (by simpa using hx), hfil]
    · rw [if_neg hx, List.filter_cons_of_pos (by simpa using hx), ih hn.2]

theorem Remove_c (c : DockerContainerStore) (id : String) : (c.Remove id).c = cut id c.c := rfl

theorem all_eq (c : DockerContainerStore) (filter : Option (Container → Bool)) :
    c.all filter = c.c.filter (accepts filter) := by
  have gen : ∀ (cs acc : Containers),
      cs.foldl (fun containers cont =>
          if accepts filter cont then containers ++ [cont] else containers) acc
        = acc ++ cs.filter (accepts filter) := by
    intro cs
    induction cs with
    | nil => intro acc; simp
    | cons x rest ih =>
      intro acc
      simp only [List.foldl_cons, ih, List.filter_cons]
      split <;> simp
  simpa [DockerContainerStore.all] using gen c.c []

theorem List_eq (c : DockerContainerStore) : c.List = c.c := by
  rw [DockerContainerStore.List, all_eq]
  exact List.filter_eq_self.2 (fun _ _ => rfl)

theorem add_c_of_mem {c : DockerContainerStore} {cont : Container} (h : cont.ID ∈ c.s) :
    (c.add cont).c = c.c := by
  simp only [DockerContainerStore.add, h, if_true]
  cases findPos cont.ID c.c with
  | none => rfl
  | some pos => simp

theorem add_c_of_not_mem {c : DockerContainerStore} {cont : Container} (h : cont.ID ∉ c.s) :
    (c.add cont).c = c.c ++ [cont] := by
  simp [DockerContainerStore.add, h]

theorem add_s (c : DockerContainerStore) (cont : Container) :
    (c.add cont).s = c.s.insert cont.ID cont := rfl

/-! ## Preservation of the invariant -/

theorem Inv_emptyStore : Inv emptyStore := by decide

theorem inv_iff (c : DockerContainerStore) :
    Inv c ↔ (ids c.c).Nodup ∧ ∀ id, id ∈ c.s ↔ id ∈ ids c.c := by
  constructor
  · rintro ⟨hnd, hks, hsk⟩
    exact ⟨hnd, fun id => ⟨fun h => hks id (AList.mem_keys.2 h), fun h => AList.mem_keys.1 (hsk id h)⟩⟩
  · rintro ⟨hnd, hiff⟩
    exact ⟨hnd, fun id h => (hiff id).1 (AList.mem_keys.1 h),
      fun id h => AList.mem_keys.2 ((hiff id).2 h)⟩

theorem ids_append (cs : Containers) (cont : Container) :
    ids (cs ++ [cont]) = ids cs ++ [cont.ID] := by
  simp [ids]

theorem Inv_add {c : DockerContainerStore} (h : Inv c) (cont : Container) : Inv (c.add cont) := by
  obtain ⟨hnd, hiff⟩ := (inv_iff c).1 h
  rw [inv_iff, add_s]
  by_cases hm : cont.ID ∈ c.s
  · rw [add_c_of_mem hm]
    refine ⟨hnd, fun id => ?_⟩
    rw [AList.mem_insert, ← hiff id]
    constructor
    · rintro (rfl | hid)
      · exact hm
      · exact hid
    · exact Or.inr
  · have hnin : cont.ID ∉ ids c.c := fun hin => hm ((hiff _).2 hin)
    rw [add_c_of_not_mem hm, ids_append]
    refine ⟨?_, fun id => ?_⟩
    · rw [List.nodup_append]
      refine ⟨hnd, List.nodup_singleton _, ?_⟩
      intro a ha hb
      rw [List.mem_singleton] at hb
      subst hb
      exact hnin ha
    · rw [AList.mem_insert, List.mem_append, List.mem_singleton, hiff id]
      exact Or.comm

theorem mem_ids_filter {id k : String} {cs : Containers} :
    k ∈ ids (cs.filter (fun x => x.ID ≠ id)) ↔ k ≠ id ∧ k ∈ ids cs := by
  simp only [ids, List.mem_map, List.mem_filter, decide_eq_true_eq]
  constructor
  · rintro ⟨x, ⟨hx, hne⟩, rfl⟩
    exact ⟨hne, x, hx, rfl⟩
  · rintro ⟨hne, x, hx, rfl⟩
    exact ⟨x, ⟨hx, hne⟩, rfl⟩

theorem Remove_c_of_inv {c : DockerContainerStore} (h : Inv c) (id : String) :
    (c.Remove id).c = c.c.filter (fun x => x.ID ≠ id) := by
  rw [Remove_c, cut_eq_filter h.1]

theorem Inv_Remove {c : DockerContainerStore} (h : Inv c) (id : String) : Inv (c.Remove id) := by
  obtain ⟨hnd, hiff⟩ := (inv_iff c).1 h
  have hs : (c.Remove id).s = c.s.erase id := rfl
  rw [inv_iff, hs, Remove_c_of_inv h]
  refine ⟨?_, fun k => ?_⟩
  · exact (List.Nodup.sublist (List.Sublist.map _ (List.filter_sublist _)) hnd)
  · rw [AList.mem_erase, mem_ids_filter, hiff k]

theorem Inv_step {c : DockerContainerStore} (h : Inv c) (op : Op) : Inv (step c op) := by
  cases op with
  | add cont => exact Inv_add h cont
  | remove id => exact Inv_Remove h id

theorem Inv_run (ops : List Op) {c : DockerContainerStore} (h : Inv c) : Inv (run ops c) := by
  induction ops generalizing c with
  | nil => exact h
  | cons op rest ih => exact ih (Inv_step h op)

theorem Get_ne_none_iff {c : DockerContainerStore} (h : Inv c) (id : String) :
    c.Get id ≠ none ↔ ∃ x ∈ c.List, x.ID = id := by
  obtain ⟨_, hiff⟩ := (inv_iff c).1 h
  rw [List_eq, DockerContainerStore.Get, Ne, AList.lookup_eq_none, not_not, hiff id]
  simp [ids]

theorem toFinset_ids_step {c : DockerContainerStore} (h : Inv c) (op : Op) :
    (ids (step c op).c).toFinset = refStep (ids c.c).toFinset op := by
  obtain ⟨_, hiff⟩ := (inv_iff c).1 h
  cases op with
  | add cont =>
    ext k
    by_cases hm : cont.ID ∈ c.s
    · have hin : cont.ID ∈ ids c.c := (hiff _).1 hm
      simp only [step, refStep, add_c_of_mem hm, List.mem_toFinset, Finset.mem_insert]
      constructor
      · exact Or.inr
      · rintro (rfl | hk)
        · exact hin
        · exact hk
    · simp only [step, refStep, add_c_of_not_mem hm, ids_append, List.mem_toFinset,
        Finset.mem_insert, List.mem_append, List.mem_singleton]
      exact Or.comm
  | remove id =>
    ext k
    simp only [step, refStep, Remove_c_of_inv h, List.mem_toFinset, Finset.mem_erase,
      mem_ids_filter]

theorem toFinset_ids_run (ops : List Op) {c : DockerContainerStore} (h : Inv c) :
    (ids (run ops c).c).toFinset = ops.foldl refStep (ids c.c).toFinset := by
  induction ops generalizing c with
  | nil => rfl
  | cons op rest ih =>
    simp only [run, List.foldl_cons] at ih ⊢
    rw [ih (Inv_step h op), toFinset_ids_step h op]

theorem keys_length_of_inv {c : DockerContainerStore} (h : Inv c) :
    c.s.keys.length = c.c.length := by
  have hperm : c.s.keys.Perm (ids c.c) :=
    (List.perm_ext_iff_of_nodup c.s.keys_nodup h.1).2
      (fun id => ⟨h.2.1 id, h.2.2 id⟩)
  rw [hperm.length_eq, ids, List.length_map]

/-! ## Properties of the store -/

/-- C1: after any finite sequence of `add` and `Remove` on the empty store, no identifier
occurs twice in the slice `c`, the keys of the map `s` are exactly the identifiers of the
slice, and `Get(id)` is non-nil exactly when some element of `List()` has that id. -/
theorem store_ids_unique_and_agree (ops : List Op) :
    (ids (run ops emptyStore).c).Nodup
    ∧ (∀ id, id ∈ (run ops emptyStore).s.keys ↔ id ∈ ids (run ops emptyStore).c)
    ∧ (∀ id, (run ops emptyStore).Get id ≠ none ↔ ∃ x ∈ (run ops emptyStore).List, x.ID = id) := by
  have h := Inv_run ops Inv_emptyStore
  exact ⟨h.1, fun id => ⟨h.2.1 id, h.2.2 id⟩, Get_ne_none_iff h⟩

/-- C2: evaluation of `add` on a duplicate identifier.  The store holds `webV1` at position 0;
after `add(webV2)` (same ID) the length of `List()` is unchanged, but position 0 still holds
the previously stored `webV1`, not the new `webV2`, while `Get` returns `webV2`. -/
theorem add_duplicate_keeps_old_element :
    webV2.ID = webV1.ID
    ∧ (emptyStore.add webV1).List.get? 0 = some webV1
    ∧ ((emptyStore.add webV1).add webV2).List.length = (emptyStore.add webV1).List.length
    ∧ ((emptyStore.add webV1).add webV2).List.get? 0 = some webV1
    ∧ ((emptyStore.add webV1).add webV2).List.get? 0 ≠ some webV2
    ∧ ((emptyStore.add webV1).add webV2).Get webV2.ID = some webV2 := by
  decide

/-- C3: a reachable state in which the map and the slice disagree.  After `add(webV1)`,
`add(webV2)` on the empty store, `List()` is `[webV1]` while `Get` of that element's ID is
`webV2`, a different value. -/
theorem map_and_slice_disagree_after_duplicate_add :
    (run [Op.add webV1, Op.add webV2] emptyStore).List = [webV1]
    ∧ (run [Op.add webV1, Op.add webV2] emptyStore).Get webV1.ID = some webV2
    ∧ ¬ (∀ x ∈ (run [Op.add webV1, Op.add webV2] emptyStore).List,
          (run [Op.add webV1, Op.add webV2] emptyStore).Get x.ID = some x) := by
  decide

/-- C4: in a store satisfying the invariant, `add` of an entity whose ID is already present
leaves the list of IDs of `List()` unchanged, in order; hence the ID keeps its position and
`Size()` is unchanged. -/
theorem add_existing_keeps_ids (c : DockerContainerStore) (e : Container)
    (hinv : Inv c) (hpresent : e.ID ∈ ids c.List) :
    ids (c.add e).List = ids c.List
    ∧ (ids (c.add e).List).indexOf e.ID = (ids c.List).indexOf e.ID
    ∧ (c.add e).Size = c.Size := by
  have hm : e.ID ∈ c.s := by
    rw [List_eq] at hpresent
    exact (((inv_iff c).1 hinv).2 _).2 hpresent
  have hc : (c.add e).c = c.c := add_c_of_mem hm
  simp only [List_eq, DockerContainerStore.Size, hc, and_self]

/-- Witness of C4: `add(webV2)` on the store holding `webV1` and `dbV1`. -/
theorem add_existing_keeps_ids_witness :
    Inv ((emptyStore.add webV1).add dbV1)
    ∧ webV2.ID ∈ ids ((emptyStore.add webV1).add dbV1).List
    ∧ ids (((emptyStore.add webV1).add dbV1).add webV2).List = ["c1", "c2"]
    ∧ (ids (((emptyStore.add webV1).add dbV1).add webV2).List).indexOf webV2.ID = 0
    ∧ (((emptyStore.add webV1).add dbV1).add webV2).Size = 2 := by
  have h := add_existing_keeps_ids ((emptyStore.add webV1).add dbV1) webV2
    (by decide) (by decide)
  refine ⟨by decide, by decide, ?_, ?_, ?_⟩
  · rw [h.1]; decide
  · rw [h.2.1]; decide
  · rw [h.2.2]; decide

/-- C5: `add` of an entity whose ID is not in the store (`Get` of its ID is nil) appends it:
`List()` is the previous `List()` followed by the entity, `Get` of its ID returns it,
`Size()` grows by exactly one, and `Get` of every other ID is unchanged. -/
theorem add_new_appends (c : DockerContainerStore) (e : Container)
    (habsent : c.Get e.ID = none) :
    (c.add e).List = c.List ++ [e]
    ∧ (c.add e).Get e.ID = some e
    ∧ (c.add e).Size = c.Size + 1
    ∧ (∀ id, id ≠ e.ID → (c.add e).Get id = c.Get id) := by
  have hm : e.ID ∉ c.s := AList.lookup_eq_none.1 habsent
  have hc : (c.add e).c = c.c ++ [e] := add_c_of_not_mem hm
  refine ⟨?_, ?_, ?_, ?_⟩
  · rw [List_eq, List_eq, hc]
  · simp [DockerContainerStore.Get, add_s]
  · simp [DockerContainerStore.Size, hc]
  · intro id hid
    simp [DockerContainerStore.Get, add_s, AList.lookup_insert_ne hid]

/-- Witness of C5: `add(dbV1)` on the store holding only `webV1`. -/
theorem add_new_appends_witness :
    (emptyStore.add webV1).Get dbV1.ID = none
    ∧ ((emptyStore.add webV1).add dbV1).List = [webV1, dbV1]
    ∧ ((emptyStore.add webV1).add dbV1).Get dbV1.ID = some dbV1
    ∧ ((emptyStore.add webV1).add dbV1).Size = 2 := by
  have h := add_new_appends (emptyStore.add webV1) dbV1 (by decide)
  refine ⟨by decide, ?_, h.2.1, ?_⟩
  · rw [h.1]; decide
  · rw [h.2.2.1]; decide

/-- C6: in a store satisfying the invariant, after `Remove(id)` the lookup `Get(id)` is nil
and `List()` is the previous `List()` without the elements whose ID is `id`, the others in
their previous order; when `id` is absent, `List()`, `Size()` and every `Get(k)` are
unchanged. -/
theorem remove_deletes_from_both (c : DockerContainerStore) (id : String) (hinv : Inv c) :
    (c.Remove id).Get id = none
    ∧ (c.Remove id).List = c.List.filter (fun x => x.ID ≠ id)
    ∧ (c.Get id = none →
        (c.Remove id).List = c.List ∧ (c.Remove id).Size = c.Size
        ∧ ∀ k, (c.Remove id).Get k = c.Get k) := by
  have hl : (c.Remove id).List = c.List.filter (fun x => x.ID ≠ id) := by
    rw [List_eq, List_eq, Remove_c_of_inv hinv]
  have hg : (c.Remove id).Get id = none := by
    simp [DockerContainerStore.Get, DockerContainerStore.Remove]
  refine ⟨hg, hl, fun habsent => ?_⟩
  have hm : id ∉ c.s := AList.lookup_eq_none.1 habsent
  have hnin : id ∉ ids c.c := fun hin => hm ((((inv_iff c).1 hinv).2 _).2 hin)
  have hc : (c.Remove id).c = c.c := by
    rw [Remove_c, cut, findPos_eq_none.2 hnin]
  refine ⟨by rw [List_eq, List_eq, hc], by rw [DockerContainerStore.Size, hc]; rfl, fun k => ?_⟩
  by_cases hk : k = id
  · rw [hk, hg, habsent]
  · simp [DockerContainerStore.Get, DockerContainerStore.Remove, AList.lookup_erase_ne hk]

/-- Witness of C6: `Remove("c1")` on the store holding `webV1` and `dbV1`. -/
theorem remove_deletes_from_both_witness :
    Inv ((emptyStore.add webV1).add dbV1)
    ∧ (((emptyStore.add webV1).add dbV1).Remove "c1").Get "c1" = none
    ∧ (((emptyStore.add webV1).add dbV1).Remove "c1").List = [dbV1] := by
  have h := remove_deletes_from_both ((emptyStore.add webV1).add dbV1) "c1" (by decide)
  refine ⟨by decide, h.1, ?_⟩
  rw [h.2.1]; decide

/-- C7: after any sequence of `add` and `Remove` on the empty store, `Size()` is the number
of identifiers present in the reference set model, the number of keys of the map `s`, and
the length of the slice `c`. -/
theorem size_counts_distinct_ids (ops : List Op) :
    (run ops emptyStore).Size = (refModel ops).card
    ∧ (run ops emptyStore).Size = (run ops emptyStore).s.keys.length
    ∧ (run ops emptyStore).Size = (run ops emptyStore).c.length := by
  have h := Inv_run ops Inv_emptyStore
  refine ⟨?_, ?_, rfl⟩
  · have hset := toFinset_ids_run ops Inv_emptyStore
    have hcard := List.toFinset_card_of_nodup h.1
    rw [hset] at hcard
    have hlen : (ids (run ops emptyStore).c).length = (run ops emptyStore).c.length := by
      simp [ids]
    rw [DockerContainerStore.Size, ← hlen, ← hcard]
    rfl
  · rw [DockerContainerStore.Size, keys_length_of_inv h]

/-- C8: for a non-nil predicate, `Filter` is `List()` with exactly the elements satisfying
the predicate kept, in order: it is a sub-sequence of `List()`, each of its elements
satisfies the predicate, and each element of `List()` satisfying the predicate occurs in
it as often as in `List()`. -/
theorem filter_keeps_exactly_matching (c : DockerContainerStore) (p : Container → Bool) :
    c.Filter (some p) = c.List.filter p
    ∧ (c.Filter (some p)).Sublist c.List
    ∧ (∀ x ∈ c.Filter (some p), p x = true)
    ∧ (∀ x ∈ c.List, p x = true → x ∈ c.Filter (some p))
    ∧ (∀ x, p x = true → (c.Filter (some p)).count x = c.List.count x) := by
  have he : c.Filter (some p) = c.List.filter p := by
    rw [DockerContainerStore.Filter, all_eq, List_eq]
    rfl
  rw [he]
  refine ⟨rfl, List.filter_sublist _, ?_, ?_, ?_⟩
  · intro x hx
    exact (List.mem_filter.1 hx).2
  · intro x hx hp
    exact List.mem_filter.2 ⟨hx, hp⟩
  · intro x hp
    rw [List.count_filter hp]

/-! ## Lemmas on the viewport -/

theorem wrapInt_of_inRange {x : Int} (hlo : -(2 ^ 63) ≤ x) (hhi : x < 2 ^ 63) :
    wrapInt x = x := by
  unfold wrapInt
  omega

theorem len_lt (images : ImageSlice) : (images.len : Int) < 2 ^ 63 := by
  have h1 := images.len_le_cap
  have h2 := images.cap_lt
  omega

theorem sliceExpr_within_len {images : ImageSlice} {start stop : Int}
    (h0 : 0 ≤ start) (h1 : start ≤ stop) (h2 : stop ≤ images.len) :
    sliceExpr images start stop = some (rowsBetween images.elems start stop) := by
  have hcap := images.len_le_cap
  have hcond : 0 ≤ start ∧ start ≤ stop ∧ stop ≤ (images.arr.length : Int) :=
    ⟨h0, h1, by omega⟩
  rw [sliceExpr, if_pos hcond, rowsBetween, ImageSlice.elems, List.drop_take, List.take_take]
  have hn : (stop - start).toNat = stop.toNat - start.toNat := by omega
  have hmin : min (stop.toNat - start.toNat) (images.len - start.toNat)
      = stop.toNat - start.toNat := by
    apply Nat.min_eq_left
    omega
  rw [hn, hmin]

theorem window_gt {cursorPos lines : Int} (h0 : 0 ≤ lines) (hgt : cursorPos > lines)
    (hhi : cursorPos + 1 < 2 ^ 63) :
    window cursorPos lines = (cursorPos + 1 - lines, cursorPos + 1) := by
  have e1 : wrapInt (cursorPos + 1) = cursorPos + 1 :=
    wrapInt_of_inRange (by omega) hhi
  have e2 : wrapInt (cursorPos + 1 - lines) = cursorPos + 1 - lines :=
    wrapInt_of_inRange (by omega) (by omega)
  rw [window, if_pos hgt, e1, e2]

theorem window_eq {lines : Int} (h0 : 0 ≤ lines) (hhi : lines + 1 < 2 ^ 63) :
    window lines lines = (1, lines + 1) := by
  have e1 : wrapInt (lines + 1) = lines + 1 := wrapInt_of_inRange (by omega) hhi
  rw [window, if_neg (lt_irrefl _), if_pos rfl, e1]

theorem window_lt {cursorPos lines : Int} (hlt : cursorPos < lines) :
    window cursorPos lines = (0, lines) := by
  rw [window, if_neg (by omega), if_neg (by omega)]

theorem imagesToShow_windowed {data : DockerImageRenderData} {height imageTableStartPos lines : Int}
    (hl : screenLines height imageTableStartPos = lines) (h0 : 0 ≤ lines)
    (hfit : lines < data.images.len) :
    imagesToShow data height imageTableStartPos
      = sliceExpr data.images (window data.selectedImage lines).1
          (window data.selectedImage lines).2 := by
  simp only [imagesToShow, hl]
  rw [if_neg (by omega), if_neg (by omega)]

/-! ## Properties of the viewport -/

/-- C9: for an image list of length `N`, `lines >= 0` with `N > lines` and a cursor in
`[0, N-1]`, `imagesToShow` returns exactly the rows `[start, end)` of the list, where
`(start, end)` is `(cursorPos + 1 - lines, cursorPos + 1)` when `cursorPos > lines`,
`(1, lines + 1)` when `cursorPos == lines`, and `(0, lines)` when `cursorPos < lines`. -/
theorem imagesToShow_returns_window (data : DockerImageRenderData)
    (height imageTableStartPos lines : Int)
    (hl : screenLines height imageTableStartPos = lines) (h0 : 0 ≤ lines)
    (hfit : lines < data.images.len)
    (hc0 : 0 ≤ data.selectedImage) (hc1 : data.selectedImage < data.images.len) :
    (data.selectedImage > lines →
      imagesToShow data height imageTableStartPos
        = some (rowsBetween data.images.elems (data.selectedImage + 1 - lines)
            (data.selectedImage + 1)))
    ∧ (data.selectedImage = lines →
      imagesToShow data height imageTableStartPos
        = some (rowsBetween data.images.elems 1 (lines + 1)))
    ∧ (data.selectedImage < lines →
      imagesToShow data height imageTableStartPos
        = some (rowsBetween data.images.elems 0 lines)) := by
  have hlen := len_lt data.images
  rw [imagesToShow_windowed hl h0 hfit]
  refine ⟨fun hgt => ?_, fun heq => ?_, fun hlt => ?_⟩
  · rw [window_gt h0 hgt (by omega)]
    exact sliceExpr_within_len (by omega) (by omega) (by omega)
  · rw [heq, window_eq h0 (by omega)]
    exact sliceExpr_within_len (by omega) (by omega) (by omega)
  · rw [window_lt hlt]
    exact sliceExpr_within_len (by omega) (by omega) (by omega)

/-- Witness of C9: ten images and five lines; the cursor on rows 0, 4, 5 and 9 gives the
windows `[0,5)`, `[0,5)`, `[1,6)` and `[5,10)`. -/
theorem imagesToShow_returns_window_witness :
    screenLines 6 0 = 5
    ∧ imagesToShow (tenAt 0) 6 0 = some (rowsBetween tenImages 0 5)
    ∧ imagesToShow (tenAt 4) 6 0 = some (rowsBetween tenImages 0 5)
    ∧ imagesToShow (tenAt 5) 6 0 = some (rowsBetween tenImages 1 6)
    ∧ imagesToShow (tenAt 9) 6 0 = some (rowsBetween tenImages 5 10) :=
  ⟨by decide,
   (imagesToShow_returns_window (tenAt 0) 6 0 5 (by decide) (by decide) (by decide)
      (by decide) (by decide)).2.2 (by decide),
   (imagesToShow_returns_window (tenAt 4) 6 0 5 (by decide) (by decide) (by decide)
      (by decide) (by decide)).2.2 (by decide),
   (imagesToShow_returns_window (tenAt 5) 6 0 5 (by decide) (by decide) (by decide)
      (by decide) (by decide)).2.1 (by decide),
   (imagesToShow_returns_window (tenAt 9) 6 0 5 (by decide) (by decide) (by decide)
      (by decide) (by decide)).1 (by decide)⟩

/-- C10, as the code has it: the window computed by `imagesToShow` is a valid range of the
list, `0 <= start <= end <= N`, and has length exactly `lines`; when `lines >= 1` it
contains the cursor row. -/
theorem window_valid_and_holds_cursor (data : DockerImageRenderData)
    (height imageTableStartPos lines : Int)
    (hl : screenLines height imageTableStartPos = lines) (h0 : 0 ≤ lines)
    (hfit : lines < data.images.len)
    (hc0 : 0 ≤ data.selectedImage) (hc1 : data.selectedImage < data.images.len) :
    imagesToShow data height imageTableStartPos
      = sliceExpr data.images (window data.selectedImage lines).1
          (window data.selectedImage lines).2
    ∧ 0 ≤ (window data.selectedImage lines).1
    ∧ (window data.selectedImage lines).1 ≤ (window data.selectedImage lines).2
    ∧ (window data.selectedImage lines).2 ≤ data.images.len
    ∧ (window data.selectedImage lines).2 - (window data.selectedImage lines).1 = lines
    ∧ (1 ≤ lines →
        (window data.selectedImage lines).1 ≤ data.selectedImage
        ∧ data.selectedImage < (window data.selectedImage lines).2) := by
  have hlen := len_lt data.images
  refine ⟨imagesToShow_windowed hl h0 hfit, ?_⟩
  rcases lt_trichotomy data.selectedImage lines with hlt | heq | hgt
  · rw [window_lt hlt]
    simp only
    omega
  · rw [heq, window_eq h0 (by omega)]
    simp only
    omega
  · rw [window_gt h0 hgt (by omega)]
    simp only
    omega

/-- Witness of C10: ten images, five lines, the cursor on row 5. -/
theorem window_valid_and_holds_cursor_witness :
    screenLines 6 0 = 5
    ∧ (window 5 5).1 ≤ (window 5 5).2
    ∧ (window 5 5).2 - (window 5 5).1 = 5
    ∧ (window 5 5).1 ≤ 5 ∧ 5 < (window 5 5).2 :=
  have h := window_valid_and_holds_cursor (tenAt 5) 6 0 5 (by decide) (by decide) (by decide)
    (by decide) (by decide)
  ⟨by decide, h.2.2.1, h.2.2.2.2.1, h.2.2.2.2.2 (by decide)⟩

/-- C10, counterexample: ten images, no line left for rows (`lines = 0`), the cursor on
row 0.  The window is `[1, 1)`: it is empty, `imagesToShow` returns no row, and the cursor
row is not inside the window. -/
theorem window_without_lines_misses_cursor :
    screenLines 1 0 = 0
    ∧ (0 : Int) < (tenAt 0).images.len
    ∧ (tenAt 0).selectedImage = 0
    ∧ window (tenAt 0).selectedImage 0 = (1, 1)
    ∧ imagesToShow (tenAt 0) 1 0 = some []
    ∧ ¬ ((window (tenAt 0).selectedImage 0).1 ≤ (tenAt 0).selectedImage
        ∧ (tenAt 0).selectedImage < (window (tenAt 0).selectedImage 0).2) := by
  decide

/-! ## Lemmas on the visible rows -/

theorem elems_length (images : ImageSlice) : images.elems.length = images.len := by
  rw [ImageSlice.elems, List.length_take]
  exact Nat.min_eq_left images.len_le_cap

theorem rowsBetween_length {xs : List ImageSummary} {start stop : Int}
    (h0 : 0 ≤ start) (h1 : start ≤ stop) (h2 : stop ≤ xs.length) :
    ((rowsBetween xs start stop).length : Int) = stop - start := by
  rw [rowsBetween, List.length_take, List.length_drop]
  omega

theorem rowsBetween_whole (xs : List ImageSummary) : rowsBetween xs 0 xs.length = xs := by
  simp [rowsBetween]

theorem rowsBetween_getElem? {xs : List ImageSummary} {start stop : Int} {i : Nat}
    (hi : (i : Int) < stop - start) :
    (rowsBetween xs start stop)[i]? = xs[start.toNat + i]? := by
  rw [rowsBetween, List.getElem?_take_of_lt (by omega), List.getElem?_drop]

theorem imagesToShow_short {data : DockerImageRenderData} {height imageTableStartPos lines : Int}
    (hl : screenLines height imageTableStartPos = lines) (h0 : 0 ≤ lines)
    (hshort : (data.images.len : Int) < lines) :
    imagesToShow data height imageTableStartPos = some data.images.elems := by
  simp only [imagesToShow, hl]
  rw [if_neg (by omega), if_pos hshort]

theorem imagesToShow_exact {data : DockerImageRenderData} {height imageTableStartPos lines : Int}
    (hl : screenLines height imageTableStartPos = lines)
    (hexact : lines = data.images.len)
    (hc1 : data.selectedImage < data.images.len) :
    imagesToShow data height imageTableStartPos = some data.images.elems := by
  simp only [imagesToShow, hl]
  rw [if_neg (by omega), if_neg (by omega), window_lt (by omega)]
  rw [sliceExpr_within_len (le_refl _) (by omega) (by omega), hexact]
  have h := rowsBetween_whole data.images.elems
  rw [elems_length] at h
  rw [h]

/-- The rows `imagesToShow` returns are the rows `[start, stop)` of the list, for a range
inside the list, whenever the cursor is inside the list or the list is shorter than
`lines`; the range has `min(N, lines)` rows, and it holds the cursor row when the cursor
is inside the list and `lines >= 1`. -/
theorem imagesToShow_range {data : DockerImageRenderData} {height imageTableStartPos lines : Int}
    (hl : screenLines height imageTableStartPos = lines) (h0 : 0 ≤ lines)
    (hc0 : 0 ≤ data.selectedImage)
    (hin : data.selectedImage < data.images.len ∨ (data.images.len : Int) < lines) :
    ∃ start stop : Int, 0 ≤ start ∧ start ≤ stop ∧ stop ≤ data.images.len
      ∧ imagesToShow data height imageTableStartPos
          = some (rowsBetween data.images.elems start stop)
      ∧ stop - start = min (data.images.len : Int) lines
      ∧ (data.selectedImage < data.images.len → 1 ≤ lines →
          start ≤ data.selectedImage ∧ data.selectedImage < stop
          ∧ (data.selectedImage < stop - start → start = 0)
          ∧ (stop - start ≤ data.selectedImage → stop = data.selectedImage + 1)) := by
  have hlen := len_lt data.images
  by_cases hshort : (data.images.len : Int) < lines
  · refine ⟨0, data.images.len, le_refl _, by omega, le_refl _, ?_, by omega, ?_⟩
    · rw [imagesToShow_short hl h0 hshort]
      have h := rowsBetween_whole data.images.elems
      rw [elems_length] at h
      rw [h]
    · intro hc1 _
      omega
  · have hc1 : data.selectedImage < data.images.len := by omega
    rcases lt_trichotomy data.selectedImage lines with hlt | heq | hgt
    · refine ⟨0, lines, le_refl _, h0, by omega, ?_, by omega, ?_⟩
      · simp only [imagesToShow, hl]
        rw [if_neg (by omega), if_neg hshort, window_lt hlt]
        exact sliceExpr_within_len (le_refl _) h0 (by omega)
      · intro _ _
        omega
    · refine ⟨1, lines + 1, by omega, by omega, by omega, ?_, by omega, ?_⟩
      · simp only [imagesToShow, hl]
        rw [if_neg (by omega), if_neg hshort, heq, window_eq h0 (by omega)]
        exact sliceExpr_within_len (by omega) (by omega) (by omega)
      · intro _ _
        omega
    · refine ⟨data.selectedImage + 1 - lines, data.selectedImage + 1, by omega, by omega,
        by omega, ?_, by omega, ?_⟩
      · simp only [imagesToShow, hl]
        rw [if_neg (by omega), if_neg hshort, window_gt h0 hgt (by omega)]
        exact sliceExpr_within_len (by omega) (by omega) (by omega)
      · intro _ _
        omega

theorem imageInformation_of_rows {data : DockerImageRenderData}
    {height imageTableStartPos : Int} {rows : List ImageSummary}
    (h : imagesToShow data height imageTableStartPos = some rows) :
    imageInformation data height imageTableStartPos
      = some (min data.selectedImage ((rows.length : Int) - 1), rows) := by
  simp only [imageInformation, h]
  by_cases hlt : data.selectedImage < (rows.length : Int) - 1
  · rw [if_pos hlt, min_eq_left (le_of_lt hlt)]
  · rw [if_neg hlt, min_eq_right (by omega)]

/-! ## Properties of the visible rows and of the selection -/

/-- C11: evaluation of `imagesToShow` on an empty image list when no line is left for rows
(`N = 0`, `lines = 0`, cursor on row 0).  The test `len(images) < lines` is false, the
branch `cursorPos == lines` sets the window `[1, 1)`, and the slice expression `images[1:1]`
is out of range for a slice of capacity 0: the call panics instead of returning the
(empty) list. -/
theorem imagesToShow_panics_on_empty_list_without_lines :
    screenLines 1 0 = 0
    ∧ noImages.images.len = 0
    ∧ noImages.images.arr.length = 0
    ∧ noImages.selectedImage = 0
    ∧ ¬ ((noImages.images.len : Int) < screenLines 1 0)
    ∧ window noImages.selectedImage (screenLines 1 0) = (1, 1)
    ∧ imagesToShow noImages 1 0 = none := by
  decide

/-- Where the visible rows stay inside the list: for `lines >= 0` and a cursor `>= 0` that
is inside the list, or any cursor `>= 0` when the list is shorter than `lines`,
`imagesToShow` returns rows
`[start, stop)` of the list with `0 <= start <= stop <= N`, and the selected row handed on
by `imageInformation` is `min(cursorPos, len(rows) - 1)`: it lies in `[0, len(rows) - 1]`
when there are rows, and is the last row when `cursorPos >= len(rows)`. -/
theorem visible_rows_inside_list (data : DockerImageRenderData)
    (height imageTableStartPos lines : Int)
    (hl : screenLines height imageTableStartPos = lines) (h0 : 0 ≤ lines)
    (hc0 : 0 ≤ data.selectedImage)
    (hin : data.selectedImage < data.images.len ∨ (data.images.len : Int) < lines) :
    ∃ (start stop selected : Int) (rows : List ImageSummary),
      0 ≤ start ∧ start ≤ stop ∧ stop ≤ data.images.len
      ∧ rows = rowsBetween data.images.elems start stop
      ∧ imagesToShow data height imageTableStartPos = some rows
      ∧ imageInformation data height imageTableStartPos = some (selected, rows)
      ∧ selected = min data.selectedImage ((rows.length : Int) - 1)
      ∧ (rows ≠ [] → 0 ≤ selected ∧ selected ≤ (rows.length : Int) - 1)
      ∧ ((rows.length : Int) ≤ data.selectedImage → selected = (rows.length : Int) - 1) := by
  obtain ⟨start, stop, hs0, hs1, hs2, hrows, _, _⟩ := imagesToShow_range hl h0 hc0 hin
  refine ⟨start, stop, _, _, hs0, hs1, hs2, rfl, hrows, imageInformation_of_rows hrows, rfl,
    ?_, ?_⟩
  · intro hne
    have hpos : 0 < (rowsBetween data.images.elems start stop).length :=
      List.length_pos.2 hne
    constructor
    · exact le_min hc0 (by omega)
    · exact min_le_right _ _
  · intro hge
    exact min_eq_right (by omega)

/-- Three images, five lines, the cursor left on row 7 beyond the end of the list: all
three rows are shown and the last one is selected. -/
theorem visible_rows_inside_list_witness :
    screenLines 6 0 = 5
    ∧ imagesToShow (threeAt 7) 6 0 = some threeImages
    ∧ imageInformation (threeAt 7) 6 0 = some (2, threeImages)
    ∧ ∃ (start stop selected : Int) (rows : List ImageSummary),
        0 ≤ start ∧ start ≤ stop ∧ stop ≤ (threeAt 7).images.len
        ∧ rows = rowsBetween (threeAt 7).images.elems start stop
        ∧ imagesToShow (threeAt 7) 6 0 = some rows
        ∧ imageInformation (threeAt 7) 6 0 = some (selected, rows)
        ∧ selected = min (threeAt 7).selectedImage ((rows.length : Int) - 1)
        ∧ (rows ≠ [] → 0 ≤ selected ∧ selected ≤ (rows.length : Int) - 1)
        ∧ ((rows.length : Int) ≤ (threeAt 7).selectedImage
            → selected = (rows.length : Int) - 1) :=
  ⟨by decide, by decide, by decide,
   visible_rows_inside_list (threeAt 7) 6 0 5 (by decide) (by decide) (by decide)
     (Or.inr (by decide))⟩

/-- C12: evaluation of `imagesToShow` with the cursor left just beyond the end of the list
(`cursorPos = N = 3`) and two lines.  The branch `cursorPos > lines` sets the window
`[2, 4)`, outside the list: with capacity 3 the slice expression `images[2:4]` panics, and
so does `imageInformation`; with capacity 4 the rows returned are `i2` and the stale `i3`,
which is not an element of the list, and the selected row is that stale row.  When the
list is shorter than `lines` the same cursor is handled: all rows are shown and the last
one is selected. -/
theorem cursor_beyond_end_indexes_outside_list :
    screenLines 3 0 = 2
    ∧ (threeAt 3).images.len = 3
    ∧ (threeAt 3).images.arr.length = 3
    ∧ (0 : Int) ≤ (threeAt 3).selectedImage
    ∧ window (threeAt 3).selectedImage (screenLines 3 0) = (2, 4)
    ∧ imagesToShow (threeAt 3) 3 0 = none
    ∧ imageInformation (threeAt 3) 3 0 = none
    ∧ (threeWithStaleAt 3).images.elems = threeImages
    ∧ imagesToShow (threeWithStaleAt 3) 3 0 = some [image "i2", image "i3"]
    ∧ image "i3" ∉ (threeWithStaleAt 3).images.elems
    ∧ imageInformation (threeWithStaleAt 3) 3 0 = some (1, [image "i2", image "i3"])
    ∧ screenLines 6 0 = 5
    ∧ imageInformation (threeAt 3) 6 0 = some (2, threeImages) := by
  decide

/-- C13: when `lines < 0`, `imagesToShow` returns normally with zero rows, for every image
list and every cursor, and `imageInformation` hands an empty row set to the formatter. -/
theorem negative_lines_give_no_rows (data : DockerImageRenderData)
    (height imageTableStartPos : Int)
    (hneg : screenLines height imageTableStartPos < 0) :
    imagesToShow data height imageTableStartPos = some []
    ∧ (imageInformation data height imageTableStartPos).map (·.2) = some [] := by
  have h : imagesToShow data height imageTableStartPos = some [] := by
    simp only [imagesToShow]
    rw [if_pos hneg]
  exact ⟨h, by rw [imageInformation_of_rows h]; rfl⟩

/-- Witness of C13: `lines = -1` over ten images. -/
theorem negative_lines_give_no_rows_witness :
    screenLines 0 0 = -1
    ∧ imagesToShow (tenAt 4) 0 0 = some []
    ∧ (imageInformation (tenAt 4) 0 0).map (·.2) = some [] :=
  ⟨by decide, negative_lines_give_no_rows (tenAt 4) 0 0 (by decide)⟩

/-- C18: for a list of `N >= 1` images, `lines >= 1` and a cursor in `[0, N-1]`, the row
selected by `imageInformation` is the cursor row: the rows shown are the rows
`[start, stop)` of the list, `start + selected = cursorPos`, and the row at position
`selected` of the rows shown is the image at position `cursorPos` of the list. -/
theorem selected_row_is_cursor_row (data : DockerImageRenderData)
    (height imageTableStartPos lines : Int)
    (hl : screenLines height imageTableStartPos = lines) (h1 : 1 ≤ lines)
    (hc0 : 0 ≤ data.selectedImage) (hc1 : data.selectedImage < data.images.len) :
    ∃ (start stop selected : Int) (visible : List ImageSummary) (image : ImageSummary),
      visible = rowsBetween data.images.elems start stop
      ∧ imagesToShow data height imageTableStartPos = some visible
      ∧ imageInformation data height imageTableStartPos = some (selected, visible)
      ∧ selected = min data.selectedImage ((visible.length : Int) - 1)
      ∧ 0 ≤ selected
      ∧ start + selected = data.selectedImage
      ∧ data.images.elems[data.selectedImage.toNat]? = some image
      ∧ visible[selected.toNat]? = some image := by
  have hlen := elems_length data.images
  obtain ⟨start, stop, hs0, hs1, hs2, hrows, hsize, hcur⟩ :=
    imagesToShow_range hl (by omega) hc0 (Or.inl hc1)
  obtain ⟨hsc, hcs, htop, hbot⟩ := hcur hc1 h1
  have hvis : ((rowsBetween data.images.elems start stop).length : Int) = stop - start :=
    rowsBetween_length hs0 hs1 (by omega)
  have hsel : min data.selectedImage
      (((rowsBetween data.images.elems start stop).length : Int) - 1)
      = data.selectedImage - start := by
    rw [hvis]
    by_cases hlt : data.selectedImage < stop - start
    · rw [min_eq_left (by omega), htop hlt]
      omega
    · rw [min_eq_right (by omega), hbot (by omega)]
      omega
  have hidx : data.selectedImage.toNat < data.images.elems.length := by omega
  refine ⟨start, stop, _, _, data.images.elems[data.selectedImage.toNat], rfl, hrows,
    imageInformation_of_rows hrows, rfl, ?_, ?_, ?_, ?_⟩
  · rw [hsel]; omega
  · rw [hsel]; omega
  · exact List.getElem?_eq_getElem hidx
  · rw [hsel, rowsBetween_getElem? (by omega)]
    have he : start.toNat + (data.selectedImage - start).toNat = data.selectedImage.toNat := by
      omega
    rw [he]
    exact List.getElem?_eq_getElem hidx

/-- Witness of C18: ten images, five lines, the cursor on row 7; the rows shown are rows
3 to 7 and the selected one, the last, is image `i7`. -/
theorem selected_row_is_cursor_row_witness :
    screenLines 6 0 = 5
    ∧ imageInformation (tenAt 7) 6 0 = some (4, rowsBetween tenImages 3 8)
    ∧ (rowsBetween tenImages 3 8)[4]? = some (image "i7")
    ∧ ∃ (start stop selected : Int) (visible : List ImageSummary) (image : ImageSummary),
        visible = rowsBetween (tenAt 7).images.elems start stop
        ∧ imagesToShow (tenAt 7) 6 0 = some visible
        ∧ imageInformation (tenAt 7) 6 0 = some (selected, visible)
        ∧ selected = min (tenAt 7).selectedImage ((visible.length : Int) - 1)
        ∧ 0 ≤ selected
        ∧ start + selected = (tenAt 7).selectedImage
        ∧ (tenAt 7).images.elems[(tenAt 7).selectedImage.toNat]? = some image
        ∧ visible[selected.toNat]? = some image :=
  ⟨by decide, by decide, by decide,
   selected_row_is_cursor_row (tenAt 7) 6 0 5 (by decide) (by decide) (by decide) (by decide)⟩

/-! ## Lemmas on the table header -/

theorem append_eq_self_iff (arrowText title : String) :
    arrowText ++ title = title ↔ arrowText = "" := by
  constructor
  · intro h
    have hd : (arrowText ++ title).data = title.data := by rw [h]
    rw [String.data_append, List.append_left_eq_self] at hd
    exact String.ext hd
  · rintro rfl
    exact String.ext (by simp)

theorem headerCell_active {downArrow : String} {sortMode : SortImagesMode} (col : imagesColumn)
    (h : col.mode = sortMode) : headerCell downArrow sortMode col = downArrow ++ col.title := by
  rw [headerCell, if_neg (by simp [h])]

theorem headerCell_inactive {downArrow : String} {sortMode : SortImagesMode} (col : imagesColumn)
    (h : col.mode ≠ sortMode) : headerCell downArrow sortMode col = col.title := by
  rw [headerCell, if_pos (fun e => h e.symm)]

theorem marked_columns_eq_count (k : ImageSortModes) (m : SortImagesMode) :
    ((rendererColumns k).filter (fun col => col.mode = m)).length
      = List.count m [k.SortImagesByRepo, k.NoSortImages, k.SortImagesByID,
          k.SortImagesByCreationDate, k.SortImagesBySize] := by
  have hmap : [k.SortImagesByRepo, k.NoSortImages, k.SortImagesByID,
      k.SortImagesByCreationDate, k.SortImagesBySize]
      = (rendererColumns k).map (·.mode) := rfl
  rw [hmap, List.count, List.countP_map, List.countP_eq_length_filter]
  refine congrArg List.length (List.filter_congr (fun col _ => ?_))
  by_cases h : col.mode = m <;> simp [h]

/-! ## Properties of the table header -/

/-- C14: with the five mode constants of the columns pairwise distinct and a non-empty
marker, `tableHeader` is the green markup around the five cells joined by tabs, the titles
being REPOSITORY, TAG, ID, Created, Size in this order; the cell of a column is its title
prefixed with the marker exactly when the mode of the column is the active sort mode, and
its bare title otherwise; at most one column is marked, and exactly one when the active
mode is the mode of a column. -/
theorem tableHeader_marks_active_column (k : ImageSortModes) (downArrow : String)
    (data : DockerImageRenderData) (hd : k.Distinct) (harrow : downArrow ≠ "") :
    tableHeader downArrow (rendererColumns k) data
      = "<green>" ++ "\t".intercalate
          ((rendererColumns k).map (headerCell downArrow data.sortMode)) ++ "</>"
    ∧ (rendererColumns k).map (·.title) = ["REPOSITORY", "TAG", "ID", "Created", "Size"]
    ∧ (rendererColumns k).map (·.mode)
        = [k.SortImagesByRepo, k.NoSortImages, k.SortImagesByID, k.SortImagesByCreationDate,
            k.SortImagesBySize]
    ∧ (∀ col ∈ rendererColumns k,
        headerCell downArrow data.sortMode col = downArrow ++ col.title
          ↔ col.mode = data.sortMode)
    ∧ (∀ col ∈ rendererColumns k,
        headerCell downArrow data.sortMode col = col.title ↔ col.mode ≠ data.sortMode)
    ∧ ((rendererColumns k).filter (fun col => col.mode = data.sortMode)).length ≤ 1
    ∧ (data.sortMode ∈ (rendererColumns k).map (·.mode) →
        ((rendererColumns k).filter (fun col => col.mode = data.sortMode)).length = 1) := by
  refine ⟨rfl, rfl, rfl, ?_, ?_, ?_, ?_⟩
  · intro col _
    constructor
    · intro hcell
      by_contra hne
      rw [headerCell_inactive col hne] at hcell
      exact harrow ((append_eq_self_iff _ _).1 hcell.symm)
    · exact headerCell_active col
  · intro col _
    constructor
    · intro hcell heq
      rw [headerCell_active col heq] at hcell
      exact harrow ((append_eq_self_iff _ _).1 hcell)
    · exact headerCell_inactive col
  · rw [marked_columns_eq_count]
    exact List.nodup_iff_count_le_one.1 hd _
  · intro hmem
    rw [marked_columns_eq_count]
    exact List.count_eq_one_of_mem hd hmem

/-- Witness of C14: the enumerated modes, the active mode being the one of the ID column. -/
theorem tableHeader_marks_active_column_witness :
    enumeratedModes.Distinct ∧ arrow ≠ ""
    ∧ tableHeader arrow (rendererColumns enumeratedModes)
        (sortedBy enumeratedModes.SortImagesByID)
        = "<green>REPOSITORY\tTAG\tv ID\tCreated\tSize</>"
    ∧ ((rendererColumns enumeratedModes).filter
        (fun col => col.mode = (sortedBy enumeratedModes.SortImagesByID).sortMode)).length = 1 :=
  have h := tableHeader_marks_active_column enumeratedModes arrow
    (sortedBy enumeratedModes.SortImagesByID) (by decide) (by decide)
  ⟨by decide, by decide, h.1.trans (by decide), h.2.2.2.2.2.2 (by decide)⟩

/-- C20: when the active sort mode is `NoSortImages`, the TAG column, whose mode is
`NoSortImages`, is rendered with the marker prefixed, and the four other columns are
rendered with their bare titles (the mode constants being pairwise distinct). -/
theorem tableHeader_marks_tag_without_sort (k : ImageSortModes) (downArrow : String)
    (data : DockerImageRenderData) (hd : k.Distinct)
    (hmode : data.sortMode = k.NoSortImages) :
    (rendererColumns k).map (headerCell downArrow data.sortMode)
      = ["REPOSITORY", downArrow ++ "TAG", "ID", "Created", "Size"]
    ∧ tableHeader downArrow (rendererColumns k) data
      = "<green>" ++ "\t".intercalate
          ["REPOSITORY", downArrow ++ "TAG", "ID", "Created", "Size"] ++ "</>" := by
  have hcells : (rendererColumns k).map (headerCell downArrow data.sortMode)
      = ["REPOSITORY", downArrow ++ "TAG", "ID", "Created", "Size"] := by
    simp only [ImageSortModes.Distinct, List.nodup_cons, List.mem_cons, List.mem_singleton,
      not_or, List.not_mem_nil, not_false_eq_true, List.nodup_nil, and_true] at hd
    obtain ⟨⟨h12, _, _, _⟩, ⟨h23, h24, h25⟩, _, _⟩ := hd
    simp only [rendererColumns, List.map_cons, List.map_nil, hmode]
    rw [headerCell_inactive ⟨"Repository", "REPOSITORY", k.SortImagesByRepo⟩ h12,
      headerCell_active ⟨"Tag", "TAG", k.NoSortImages⟩ rfl,
      headerCell_inactive ⟨"Id", "ID", k.SortImagesByID⟩ (Ne.symm h23),
      headerCell_inactive ⟨"Created", "Created", k.SortImagesByCreationDate⟩ (Ne.symm h24),
      headerCell_inactive ⟨"Size", "Size", k.SortImagesBySize⟩ (Ne.symm h25)]
  refine ⟨hcells, ?_⟩
  rw [tableHeader, hcells]

/-- Witness of C20: the enumerated modes with `NoSortImages` active. -/
theorem tableHeader_marks_tag_without_sort_witness :
    enumeratedModes.Distinct
    ∧ (sortedBy enumeratedModes.NoSortImages).sortMode = enumeratedModes.NoSortImages
    ∧ tableHeader arrow (rendererColumns enumeratedModes)
        (sortedBy enumeratedModes.NoSortImages)
        = "<green>REPOSITORY\tv TAG\tID\tCreated\tSize</>" :=
  ⟨by decide, by decide,
   (tableHeader_marks_tag_without_sort enumeratedModes arrow
      (sortedBy enumeratedModes.NoSortImages) (by decide) (by decide)).2.trans (by decide)⟩

/-! ## Lemmas on construction and sorting -/

theorem foldl_add_eq_run (L : Containers) (c : DockerContainerStore) :
    L.foldl (fun store container => store.add container) c = run (L.map Op.add) c := by
  rw [run, List.foldl_map]
  rfl

theorem foldl_add_distinct (L : Containers) {c : DockerContainerStore} (h : Inv c)
    (hnew : ∀ x ∈ L, x.ID ∉ ids c.c) (hnd : (ids L).Nodup) :
    (L.foldl (fun store container => store.add container) c).c = c.c ++ L := by
  induction L generalizing c with
  | nil => simp
  | cons x rest ih =>
    have hx : x.ID ∉ c.s := fun hm =>
      hnew x (List.mem_cons_self _ _) ((((inv_iff c).1 h).2 _).1 hm)
    have hc : (c.add x).c = c.c ++ [x] := add_c_of_not_mem hx
    have hnd2 : x.ID ∉ ids rest ∧ (ids rest).Nodup := by simpa [ids] using hnd
    rw [List.foldl_cons, ih (Inv_add h x) ?_ hnd2.2, hc, List.append_assoc]
    · rfl
    · intro y hy
      rw [hc, ids_append, List.mem_append, List.mem_singleton]
      rintro (hin | heq)
      · exact hnew y (List.mem_cons_of_mem _ hy) hin
      · apply hnd2.1
        rw [← heq]
        exact List.mem_map_of_mem _ hy

theorem tieLe_total (mode : SortMode) (a b : Container) : tieLe mode a b ∨ tieLe mode b a := by
  unfold tieLe
  by_cases hab : mode.le a b = true
  · by_cases hba : mode.le b a = true
    · rcases le_total a.ID b.ID with h | h
      · exact Or.inl ⟨hab, fun _ => h⟩
      · exact Or.inr ⟨hba, fun _ => h⟩
    · exact Or.inl ⟨hab, fun h => absurd h hba⟩
  · have hba : mode.le b a = true := (mode.total a b).resolve_left hab
    exact Or.inr ⟨hba, fun h => absurd h hab⟩

theorem tieLe_trans (mode : SortMode) {a b c : Container}
    (hab : tieLe mode a b) (hbc : tieLe mode b c) : tieLe mode a c := by
  refine ⟨mode.trans _ _ _ hab.1 hbc.1, fun hca => ?_⟩
  have hba : mode.le b a = true := mode.trans _ _ _ hbc.1 hca
  have hcb : mode.le c b = true := mode.trans _ _ _ hca hab.1
  exact le_trans (hab.2 hba) (hbc.2 hcb)

theorem SortContainers_sorted (containers : Containers) (mode : SortMode) :
    (SortContainers containers mode).Pairwise (tieLe mode) := by
  haveI : IsTotal Container (tieLe mode) := ⟨tieLe_total mode⟩
  haveI : IsTrans Container (tieLe mode) := ⟨fun _ _ _ => tieLe_trans mode⟩
  exact List.sorted_insertionSort (tieLe mode) containers

theorem Sort_sample :
    (((emptyStore.add dbV1).add webV1).Sort byCreated).1 = [webV1, dbV1] := by
  decide

/-! ## Properties of construction, locking and sorting -/

/-- C15: `NewDockerContainerStore` returns the error of the listing and no store when the
listing fails; when the listing gives `L` it returns the store obtained from the empty
store by `add` of each element of `L` in order, and for `L` with pairwise distinct IDs
`List()` of that store is `L` and `Size()` is `len(L)`. -/
theorem NewDockerContainerStore_result {ε : Type} (err : ε) (L : Containers) :
    NewDockerContainerStore (Except.error err : Except ε Containers) = Except.error err
    ∧ NewDockerContainerStore (Except.ok L : Except ε Containers)
        = Except.ok (run (L.map Op.add) emptyStore)
    ∧ ((ids L).Nodup →
        (run (L.map Op.add) emptyStore).List = L
        ∧ (run (L.map Op.add) emptyStore).Size = L.length) := by
  refine ⟨rfl, ?_, fun hnd => ?_⟩
  · simp only [NewDockerContainerStore, foldl_add_eq_run]
  · have hc : (run (L.map Op.add) emptyStore).c = L := by
      rw [← foldl_add_eq_run, foldl_add_distinct L Inv_emptyStore (fun _ _ h => by cases h) hnd]
      rfl
    rw [List_eq, DockerContainerStore.Size, hc]
    exact ⟨rfl, rfl⟩

/-- Witness of C15: the listing gives `webV1` and `dbV1`. -/
theorem NewDockerContainerStore_result_witness :
    (ids [webV1, dbV1]).Nodup
    ∧ (run ([webV1, dbV1].map Op.add) emptyStore).List = [webV1, dbV1]
    ∧ (run ([webV1, dbV1].map Op.add) emptyStore).Size = 2 :=
  ⟨by decide, (NewDockerContainerStore_result "unreachable daemon" [webV1, dbV1]).2.2 (by decide)⟩

/-- C16: the mutex calls of `Sort`.  `Sort` takes the read lock and, still holding it, calls
`List`, whose `all` takes the read lock again: two acquisitions, the second one while the
first is held.  Each of the other operations acquires the lock once and releases it. -/
theorem Sort_acquires_read_lock_twice :
    SortLocks = [LockEvent.RLock, LockEvent.RLock, LockEvent.RUnlock, LockEvent.RUnlock]
    ∧ acquisitions SortLocks = 2
    ∧ heldAfter 0 SortLocks = [1, 2, 1, 0]
    ∧ ¬ LocksOnce SortLocks
    ∧ LocksOnce addLocks ∧ LocksOnce GetLocks ∧ LocksOnce ListLocks ∧ LocksOnce RemoveLocks
    ∧ LocksOnce SizeLocks ∧ LocksOnce FilterLocks := by
  decide

/-- C17: against the modelled `SortContainers`, a second `Sort` on the store left by a first
`Sort` returns the same sequence; the sequence is a permutation of `List()`; of two of its
elements the earlier comes no later under the mode, and when the two compare equal under
the mode the earlier has the smaller or equal identifier; `List()` after the call is
`List()` before it. -/
theorem Sort_deterministic_and_pure (c : DockerContainerStore) (mode : SortMode) :
    ((c.Sort mode).2.Sort mode).1 = (c.Sort mode).1
    ∧ (c.Sort mode).1.Perm c.List
    ∧ (c.Sort mode).1.Pairwise
        (fun a b => mode.le a b = true ∧ (mode.le b a = true → a.ID ≤ b.ID))
    ∧ (c.Sort mode).2.List = c.List := by
  refine ⟨rfl, ?_, ?_, rfl⟩
  · exact List.perm_insertionSort (tieLe mode) c.List
  · exact SortContainers_sorted c.List mode

/-! ## Properties of the window at the boundary -/

/-- C19, as the code has it: for `lines >= 0` and a cursor `>= 0` below the largest value of
`int` (so that `cursorPos + 1` does not overflow), the window of `imagesToShow` is
`(max(0, cursorPos + 1 - lines), max(0, cursorPos + 1 - lines) + lines)`; and for
`cursorPos == lines` no window of length `lines` holds both row 0 and the cursor row. -/
theorem window_eq_windowSpec (cursorPos lines : Int)
    (h0 : 0 ≤ lines) (hc0 : 0 ≤ cursorPos) (hc1 : cursorPos + 1 < 2 ^ 63) :
    window cursorPos lines = windowSpec cursorPos lines
    ∧ (cursorPos = lines → ∀ start : Int,
        ¬ (start ≤ 0 ∧ 0 < start + lines ∧ start ≤ cursorPos ∧ cursorPos < start + lines)) := by
  constructor
  · rcases lt_trichotomy cursorPos lines with hlt | heq | hgt
    · rw [window_lt hlt, windowSpec, max_eq_left (by omega)]
      simp
    · rw [heq, window_eq h0 (by omega), windowSpec, max_eq_right (by omega)]
      simp only [Prod.mk.injEq]
      omega
    · rw [window_gt h0 hgt hc1, windowSpec, max_eq_right (by omega)]
      simp only [Prod.mk.injEq, true_and]
      omega
  · intro heq start
    omega

/-- Witness of C19: the boundary `cursorPos = lines = 5`, where the window is `[1, 6)`. -/
theorem window_eq_windowSpec_witness :
    window 5 5 = (1, 6) ∧ windowSpec 5 5 = (1, 6) ∧ window 5 5 = windowSpec 5 5 :=
  ⟨by decide, by decide, (window_eq_windowSpec 5 5 (by decide) (by decide) (by decide)).1⟩

/-- C19, counterexample: a cursor on the largest value of the 64-bit `int` with `lines = 0`.
`cursorPos + 1` wraps around to the smallest value, so the code's window starts and ends
at `-2^63`, while the formula gives `(2^63, 2^63)`. -/
theorem window_differs_at_largest_cursor :
    (0 : Int) ≤ 0 ∧ (0 : Int) ≤ 9223372036854775807
    ∧ window 9223372036854775807 0 = (-9223372036854775808, -9223372036854775808)
    ∧ windowSpec 9223372036854775807 0 = (9223372036854775808, 9223372036854775808)
    ∧ window 9223372036854775807 0 ≠ windowSpec 9223372036854775807 0 := by
  decide

end Dry
